import Mathlib

/-!
Verification of the precision-crop-health core: hexagonal grid generation
clipped to a boundary polygon (src/grid/hexgrid.py) and capacity-constrained
clustering assignment (src/assign/capacity_kmeans.py).

Modelling conventions.
* Python floats are modelled exactly: by real numbers where square roots
  occur (the geometry primitives), and by rationals everywhere else, so that
  every definition the assignment algorithm needs is executable.
* External libraries are not re-implemented.  sklearn KMeans is modelled by
  passing its outputs (a label per cell and a centroid per cluster) as
  parameters, with the KMeans contract (every label is below k, exactly k
  centroids) as hypotheses where needed.  shapely polygon operations are
  modelled by an abstract geometry interface `GeoModel`; facts about them
  (the area of an intersection is at most the area of either operand) are
  hypotheses of the theorems that need them.
* Python exceptions are modelled with `Except`: a raised ValueError,
  ZeroDivisionError, KeyError or IndexError is an `AssignError` value.
* `math.hypot` distances are compared, never used as magnitudes; since the
  square root is strictly monotone on nonnegative reals, comparing and
  sorting by squared Euclidean distance `dist2` is order- and tie-equivalent
  to the source's behaviour, and keeps the embedding in ℚ.
-/

set_option allowUnsafeReducibility true
attribute [local semireducible] Rat.add Rat.mul Rat.sub Rat.inv

/-! ## Geometry primitives (src/grid/hexgrid.py, real-valued) -/

/-- Square meters in one acre: the constant `ACRE_M2 = 4046.8564224` of
src/grid/hexgrid.py (exact decimal). -/
noncomputable def ACRE_M2 : ℝ := 40468564224 / 10000000

/-- Constant `HEX_CONST = 3.0 * math.sqrt(3) / 2.0` of src/grid/hexgrid.py. -/
noncomputable def HEX_CONST : ℝ := 3 * Real.sqrt 3 / 2

/-- Function `hex_area(side_length_m)` of src/grid/hexgrid.py:
area of a regular hexagon, `HEX_CONST * side**2`. -/
noncomputable def hex_area (side_length_m : ℝ) : ℝ := HEX_CONST * side_length_m ^ 2

/-- The side-for-area primitive of the spec, which is line 22 of
src/grid/hexgrid.py applied to a target area already in square meters:
`side = math.sqrt(target_area_m2 / HEX_CONST)`. -/
noncomputable def sideForArea (target_area_m2 : ℝ) : ℝ :=
  Real.sqrt (target_area_m2 / HEX_CONST)

/-- Function `compute_hex_side_for_acres(cell_acres)` of src/grid/hexgrid.py:
converts acres to square meters, then applies the side-for-area formula. -/
noncomputable def compute_hex_side_for_acres (cell_acres : ℝ) : ℝ :=
  Real.sqrt ((cell_acres * ACRE_M2) / HEX_CONST)

/-! ## Grid builder (src/grid/hexgrid.py, executable rational model) -/

/-- Model of Python `int(math.floor(q))` on an exact rational. -/
def ratFloor (q : ℚ) : ℤ := q.num.fdiv q.den

/-- Model of Python `int(math.ceil(q))` on an exact rational. -/
def ratCeil (q : ℚ) : ℤ := -(ratFloor (-q))

/-- Model of Python `range(lo, hi + 1)` over integers. -/
def intRange (lo hi : ℤ) : List ℤ := (List.range (hi + 1 - lo).toNat).map (fun n => lo + n)

/-- Function `axial_to_xy(q, r, s)` of src/grid/hexgrid.py for pointy-top
hexes: `x = s * sqrt(3) * (q + r/2)`, `y = s * 1.5 * r`.  The float value
`math.sqrt(3.0)` is passed in by the geometry model. -/
def axial_to_xy (sqrt3 : ℚ) (q r : ℤ) (s : ℚ) : ℚ × ℚ :=
  (s * sqrt3 * ((q : ℚ) + (r : ℚ) / 2), s * (3 / 2) * (r : ℚ))

/-- Abstract interface to the external geometry layer (shapely) and to the
two float-valued scalars the grid builder consumes.  `Poly` stands for
shapely polygons; `bounds` returns `(minx, miny, maxx, maxy)`;
`hex_center_to_polygon` builds the regular hexagon of side `s` centered at
`(cx, cy)` (function `hex_center_to_polygon` of src/grid/hexgrid.py, whose
trigonometry lives in the external layer); `computeSide` is the float
computation of `compute_hex_side_for_acres`, irrational in exact terms. -/
structure GeoModel where
  Poly : Type
  sqrt3 : ℚ
  computeSide : ℚ → ℚ
  area : Poly → ℚ
  intersects : Poly → Poly → Bool
  intersection : Poly → Poly → Poly
  bounds : Poly → ℚ × ℚ × ℚ × ℚ
  hex_center_to_polygon : ℚ → ℚ → ℚ → Poly

/-- A raw or translated lattice hexagon: its center and its polygon. -/
structure TransHex (P : Type) where
  center : ℚ × ℚ
  poly : P

/-- A grid cell as returned by `generate_hex_grid`: sequential id, center,
clipped polygon and clipped area (the dict of src/grid/hexgrid.py line 121). -/
structure GridCell (P : Type) where
  id : Nat
  center : ℚ × ℚ
  poly : P
  area_m2 : ℚ
deriving DecidableEq

/-- Step 7 of `generate_hex_grid` (src/grid/hexgrid.py lines 112-135): clip
each translated hexagon to the farm polygon, keep it (with the next
sequential id) when it intersects the boundary and, if sliver rejection is
on, when the clipped area exceeds 1 square meter. -/
def clip_collect (G : GeoModel) (farm : G.Poly) (ignore_slivers : Bool) :
    List (TransHex G.Poly) → Nat → List (GridCell G.Poly)
  | [], _ => []
  | h :: rest, hex_id =>
    if G.intersects h.poly farm then
      let clipped := G.intersection h.poly farm
      let area := G.area clipped
      if ignore_slivers then
        if 1 < area then
          { id := hex_id, center := h.center, poly := clipped, area_m2 := area } ::
            clip_collect G farm ignore_slivers rest (hex_id + 1)
        else clip_collect G farm ignore_slivers rest hex_id
      else
        { id := hex_id, center := h.center, poly := clipped, area_m2 := area } ::
          clip_collect G farm ignore_slivers rest (hex_id + 1)
    else clip_collect G farm ignore_slivers rest hex_id

/-- Function `generate_hex_grid(farm_polygon, cell_acres, ignore_slivers)` of
src/grid/hexgrid.py: build a generously padded axial lattice over the farm's
bounding box, recenter its mean to the bounding-box center, then clip every
hexagon to the farm polygon via `clip_collect`. -/
def generate_hex_grid (G : GeoModel) (farm_polygon : G.Poly) (cell_acres : ℚ)
    (ignore_slivers : Bool) : List (GridCell G.Poly) :=
  let s := G.computeSide cell_acres
  let sqrt3 := G.sqrt3
  let b := G.bounds farm_polygon
  let minx := b.1
  let miny := b.2.1
  let maxx := b.2.2.1
  let maxy := b.2.2.2
  let farm_cx := (minx + maxx) / 2
  let farm_cy := (miny + maxy) / 2
  let q_min := ratFloor ((minx - 3 * s) / (s * sqrt3)) - 3
  let q_max := ratCeil ((maxx + 3 * s) / (s * sqrt3)) + 3
  let r_min := ratFloor ((miny - 3 * s) / ((3 / 2) * s)) - 3
  let r_max := ratCeil ((maxy + 3 * s) / ((3 / 2) * s)) + 3
  let raw_hexes : List (TransHex G.Poly) :=
    (intRange r_min r_max).flatMap (fun r =>
      (intRange q_min q_max).map (fun q =>
        let c := axial_to_xy sqrt3 q r s
        { center := c, poly := G.hex_center_to_polygon c.1 c.2 s }))
  if raw_hexes.isEmpty then [] else
  let mean_x := ((raw_hexes.map (fun h => h.center.1)).sum) / (raw_hexes.length : ℚ)
  let mean_y := ((raw_hexes.map (fun h => h.center.2)).sum) / (raw_hexes.length : ℚ)
  let off_x := farm_cx - mean_x
  let off_y := farm_cy - mean_y
  let translated_hexes : List (TransHex G.Poly) :=
    raw_hexes.map (fun h =>
      let cx := h.center.1 + off_x
      let cy := h.center.2 + off_y
      { center := (cx, cy), poly := G.hex_center_to_polygon cx cy s })
  clip_collect G farm_polygon ignore_slivers translated_hexes 0

/-! ## Cluster assigner (src/assign/capacity_kmeans.py, executable) -/

/-- Python exceptions `assign_hexes_to_uavs` can raise: the explicit
ValueError for zero total workload (the spec's ZeroWorkloadError), float
division by zero when the battery sum is zero, KeyError on a dict access
with a missing key, IndexError on an out-of-range list index. -/
inductive AssignError where
  | zeroWorkload
  | zeroDivision
  | keyError
  | indexError
deriving DecidableEq

deriving instance DecidableEq for Except

/-- A hex cell as the assigner reads it: the dict keys of
src/assign/capacity_kmeans.py (`priority` may be absent, default 1). -/
structure HexCell where
  id : ℤ
  center : ℚ × ℚ
  area_m2 : ℚ
  priority : Option ℚ
  restricted : Bool
deriving DecidableEq

/-- A vehicle as the assigner reads it: `battery_pct` may be absent
(default 1.0), `capacity_workload` may be absent (computed if so). -/
structure Uav where
  id : ℤ
  battery_pct : Option ℚ
  capacity_workload : Option ℚ
deriving DecidableEq

/-- Per-vehicle statistics dict built at src/assign/capacity_kmeans.py
lines 106-111. -/
structure UavStats where
  count_hexes : Nat
  workload : ℚ
  capacity : ℚ
  battery_pct : Option ℚ
deriving DecidableEq

/-- Workload of one cell: `h['area_m2'] * h.get('priority', 1)`. -/
def workload (h : HexCell) : ℚ := h.area_m2 * h.priority.getD 1

/-- Total workload over all cells (line 30). -/
def total_workload (hex_cells : List HexCell) : ℚ := (hex_cells.map workload).sum

/-- Function `bucket_workload(bucket)` (lines 53-54). -/
def bucket_workload (bucket : List HexCell) : ℚ := (bucket.map workload).sum

/-- Sum `sum(u.get('battery_pct', 1.0) for u in uavs)` (line 35). -/
def battery_sum (uavs : List Uav) : ℚ := (uavs.map (fun u => u.battery_pct.getD 1)).sum

/-- One step of the capacity-filling loop (lines 36-39): a vehicle lacking
`capacity_workload` gets `total * (battery / battery_sum)`; in Python the
float division raises ZeroDivisionError when `battery_sum` is zero. -/
def update_capacity (total bs : ℚ) (u : Uav) : Except AssignError Uav :=
  match u.capacity_workload with
  | some _ => .ok u
  | none =>
    if bs = 0 then .error .zeroDivision
    else .ok { u with capacity_workload := some (total * (u.battery_pct.getD 1 / bs)) }

/-- The capacity-filling loop over the vehicle list, with the battery sum
fixed before the loop as in the source. -/
def compute_capacities_aux (total bs : ℚ) : List Uav → Except AssignError (List Uav)
  | [] => .ok []
  | u :: rest =>
    match update_capacity total bs u with
    | .error e => .error e
    | .ok u2 =>
      match compute_capacities_aux total bs rest with
      | .error e => .error e
      | .ok rest2 => .ok (u2 :: rest2)

/-- Lines 35-39 of src/assign/capacity_kmeans.py: compute the battery sum,
then fill in every missing `capacity_workload`. -/
def compute_capacities (uavs : List Uav) (total : ℚ) : Except AssignError (List Uav) :=
  compute_capacities_aux total (battery_sum uavs) uavs

/-- Squared Euclidean distance; stands for the `math.hypot` distance of the
source, which is only ever compared (see the header note). -/
def dist2 (p q : ℚ × ℚ) : ℚ :=
  (p.1 - q.1) * (p.1 - q.1) + (p.2 - q.2) * (p.2 - q.2)

/-- Python ascending comparison of `(dist, bucket_index)` tuples used by
`candidates.sort()` (line 89), on squared distances. -/
def tuple_le (x y : ℚ × Nat) : Prop := x.1 < y.1 ∨ (x.1 = y.1 ∧ x.2 ≤ y.2)

instance : DecidableRel tuple_le := fun x y => by unfold tuple_le; infer_instance

/-- Descending-distance comparison used to model
`sorted(buckets[b], key=lambda h: -dist(h, centroid))` (lines 71-72): a
stable sort with this relation is exactly Python's stable descending sort
(Python's sort and `List.insertionSort` are both stable). -/
def farther (centroid : ℚ × ℚ) (h1 h2 : HexCell) : Prop :=
  dist2 h2.center centroid ≤ dist2 h1.center centroid

instance (centroid : ℚ × ℚ) : DecidableRel (farther centroid) := fun h1 h2 => by
  unfold farther; infer_instance

/-- Bucket building (lines 49-51): `buckets[lab].append(hex_cells[idx])` for
each label; a label outside `range(k)` would be a KeyError on the bucket
dict, an index beyond the cell list an IndexError. -/
def build_buckets (hex_cells : List HexCell) (k : Nat) :
    List Nat → Nat → List (List HexCell) → Except AssignError (List (List HexCell))
  | [], _, bk => .ok bk
  | lab :: rest, idx, bk =>
    match hex_cells[idx]? with
    | none => .error .indexError
    | some c =>
      if lab < k then
        build_buckets hex_cells k rest (idx + 1) (bk.set lab ((bk.getD lab []) ++ [c]))
      else .error .keyError

/-- The candidate scan of lines 76-85: for each other bucket `b2`, if its
spare capacity is at least half the cell's workload, record
`(distance to b2's centroid, b2)`.  List indexing into `capacities` and
`cluster_centers` is fallible, as in Python. -/
def collect_candidates (caps : List ℚ) (ccs : List (ℚ × ℚ)) (bk : List (List HexCell))
    (b : Nat) (h : HexCell) : List Nat → Except AssignError (List (ℚ × Nat))
  | [] => .ok []
  | b2 :: rest =>
    if b2 = b then collect_candidates caps ccs bk b h rest
    else
      match caps[b2]? with
      | none => .error .indexError
      | some cap2 =>
        if workload h * (1 / 2) ≤ cap2 - bucket_workload (bk.getD b2 []) then
          match ccs[b2]? with
          | none => .error .indexError
          | some cc2 =>
            match collect_candidates caps ccs bk b h rest with
            | .error e => .error e
            | .ok rest2 => .ok ((dist2 h.center cc2, b2) :: rest2)
        else collect_candidates caps ccs bk b h rest

/-- Lines 91-92: `buckets[b].remove(h)` (first occurrence equal to `h`) then
`buckets[chosen_b].append(h)`. -/
def move_cell (bk : List (List HexCell)) (b b2 : Nat) (h : HexCell) :
    List (List HexCell) :=
  let bk1 := bk.set b ((bk.getD b []).erase h)
  bk1.set b2 ((bk1.getD b2 []) ++ [h])

/-- The `for h in hexes_sorted` loop of lines 74-95: the first cell with a
nonempty candidate list is moved to the candidate bucket with the least
`(distance, index)` pair, and the loop stops (`break`). -/
def try_move (caps : List ℚ) (ccs : List (ℚ × ℚ)) (k : Nat) (b : Nat)
    (bk : List (List HexCell)) :
    List HexCell → Except AssignError (List (List HexCell) × Bool)
  | [] => .ok (bk, false)
  | h :: rest =>
    match collect_candidates caps ccs bk b h (List.range k) with
    | .error e => .error e
    | .ok cands =>
      match (List.insertionSort tuple_le cands).head? with
      | none => try_move caps ccs k b bk rest
      | some c => .ok (move_cell bk b c.2 h, true)

/-- Lines 63-95 for one bucket `b`: skip it when its workload fits its
capacity, otherwise sort its cells farthest-first from its centroid and try
to move one out. -/
def process_bucket (caps : List ℚ) (ccs : List (ℚ × ℚ)) (k : Nat)
    (bk : List (List HexCell)) (b : Nat) :
    Except AssignError (List (List HexCell) × Bool) :=
  let bucket := bk.getD b []
  let w := bucket_workload bucket
  match caps[b]? with
  | none => .error .indexError
  | some cap =>
    if w ≤ cap then .ok (bk, false)
    else
      match ccs[b]? with
      | none => .error .indexError
      | some centroid =>
        try_move caps ccs k b bk (List.insertionSort (farther centroid) bucket)

/-- One pass of the while loop (the `for b in range(k)` body), threading the
updated buckets and or-ing the changed flag. -/
def run_pass (caps : List ℚ) (ccs : List (ℚ × ℚ)) (k : Nat) :
    List Nat → List (List HexCell) → Bool → Except AssignError (List (List HexCell) × Bool)
  | [], bk, ch => .ok (bk, ch)
  | b :: rest, bk, ch =>
    match process_bucket caps ccs k bk b with
    | .error e => .error e
    | .ok r => run_pass caps ccs k rest r.1 (ch || r.2)

/-- The while loop of lines 57-98 with its iteration budget as fuel: run a
pass; if it moved something and budget remains, continue; also returns the
number of passes executed. -/
def rebalance (caps : List ℚ) (ccs : List (ℚ × ℚ)) (k : Nat) :
    Nat → List (List HexCell) → Except AssignError (List (List HexCell) × Nat)
  | 0, bk => .ok (bk, 0)
  | fuel + 1, bk =>
    match run_pass caps ccs k (List.range k) bk false with
    | .error e => .error e
    | .ok r =>
      if r.2 then
        match rebalance caps ccs k fuel r.1 with
        | .error e => .error e
        | .ok r2 => .ok (r2.1, r2.2 + 1)
      else .ok (r.1, 1)

/-- Lines 100-111: map bucket `i` to the i-th vehicle (`buckets.get(i, [])`,
so a missing bucket yields the empty list) and build the per-vehicle stats. -/
def mk_output : List Uav → Nat → List (List HexCell) →
    List (ℤ × List HexCell) × List (ℤ × UavStats)
  | [], _, _ => ([], [])
  | u :: rest, i, bk =>
    let assigned := bk.getD i []
    let r := mk_output rest (i + 1) bk
    ((u.id, assigned) :: r.1,
     (u.id,
      { count_hexes := assigned.length
        workload := bucket_workload assigned
        capacity := u.capacity_workload.getD 0
        battery_pct := u.battery_pct }) :: r.2)

/-- Function `assign_hexes_to_uavs(hex_cells, uavs, k, seed)` of
src/assign/capacity_kmeans.py.  The KMeans seeding is external (sklearn), so
its outputs are parameters: `labels` (one bucket index per cell) and
`cluster_centers` (one centroid per cluster); `kArg = none` models `k=None`,
which defaults to `len(uavs)`.  After computing capacities the vehicle list
carries them, exactly as the in-place Python mutation leaves it. -/
def assign_hexes_to_uavs (hex_cells : List HexCell) (uavs : List Uav)
    (labels : List Nat) (cluster_centers : List (ℚ × ℚ)) (kArg : Option Nat) :
    Except AssignError (List (ℤ × List HexCell) × List (ℤ × UavStats)) :=
  let k := kArg.getD uavs.length
  let total := total_workload hex_cells
  if total ≤ 0 then .error .zeroWorkload
  else
    match compute_capacities uavs total with
    | .error e => .error e
    | .ok uavs2 =>
      let capacities := uavs2.map (fun u => u.capacity_workload.getD 0)
      match build_buckets hex_cells k labels 0 (List.replicate k []) with
      | .error e => .error e
      | .ok bk0 =>
        match rebalance capacities cluster_centers k (max 200 (10 * k)) bk0 with
        | .error e => .error e
        | .ok r => .ok (mk_output uavs2 0 r.1)

/-! ## General list and multiset helpers -/

set_option maxRecDepth 40000

/-- Replacing bucket `i` by `l` exchanges exactly the old content of bucket
`i` for `l` in the flattened multiset. -/
theorem flatten_set_coe {α : Type} (bk : List (List α)) (i : Nat) (l : List α)
    (hi : i < bk.length) :
    ((bk.set i l).flatten : Multiset α) + (bk.getD i [] : List α) =
      (bk.flatten : Multiset α) + (l : List α) := by
  have hset : bk.set i l = bk.take i ++ l :: bk.drop (i + 1) := by
    rw [List.set_eq_take_append_cons_drop, if_pos hi]
  have hbk : bk.flatten = (bk.take i ++ bk[i] :: bk.drop (i + 1)).flatten := by
    conv_lhs => rw [← List.take_append_drop i bk, List.drop_eq_getElem_cons hi]
  have hgetD : bk.getD i [] = bk[i] := List.getD_eq_getElem bk [] hi
  rw [hset, hgetD, hbk]
  simp only [List.flatten_append, List.flatten_cons, ← Multiset.coe_add]
  abel

/-- Length is preserved by a bucket update. -/
theorem set_length {α : Type} (bk : List (List α)) (i : Nat) (l : List α) :
    (bk.set i l).length = bk.length := List.length_set bk i l

/-- Moving one cell from bucket `b` to bucket `b2` leaves the flattened
multiset of cells unchanged. -/
theorem move_cell_flatten (bk : List (List HexCell)) (b b2 : Nat) (h : HexCell)
    (hb : b < bk.length) (hb2 : b2 < bk.length)
    (hmem : h ∈ bk.getD b []) :
    ((move_cell bk b b2 h).flatten : Multiset HexCell) = (bk.flatten : Multiset HexCell) := by
  unfold move_cell
  set bk1 := bk.set b ((bk.getD b []).erase h) with hbk1
  have hb1len : bk1.length = bk.length := by rw [hbk1, set_length]
  have step1 : (bk1.flatten : Multiset HexCell) + (bk.getD b [] : List HexCell) =
      (bk.flatten : Multiset HexCell) + ((bk.getD b []).erase h : List HexCell) :=
    flatten_set_coe bk b _ hb
  have hperm : ((bk.getD b []) : Multiset HexCell) =
      (h :: (bk.getD b []).erase h : List HexCell) :=
    Multiset.coe_eq_coe.mpr (List.perm_cons_erase hmem)
  have step1a : (bk1.flatten : Multiset HexCell) + {h} = (bk.flatten : Multiset HexCell) := by
    have e1 : ((bk1.flatten : Multiset HexCell) + {h}) + ((bk.getD b []).erase h : List HexCell) =
        (bk.flatten : Multiset HexCell) + ((bk.getD b []).erase h : List HexCell) := by
      rw [← step1, hperm, ← Multiset.cons_coe, ← Multiset.singleton_add, add_assoc]
    exact add_right_cancel e1
  have step2 : ((bk1.set b2 ((bk1.getD b2 []) ++ [h])).flatten : Multiset HexCell) +
      (bk1.getD b2 [] : List HexCell) =
      (bk1.flatten : Multiset HexCell) + ((bk1.getD b2 []) ++ [h] : List HexCell) :=
    flatten_set_coe bk1 b2 _ (by rw [hb1len]; exact hb2)
  have step2a : ((bk1.set b2 ((bk1.getD b2 []) ++ [h])).flatten : Multiset HexCell) =
      (bk1.flatten : Multiset HexCell) + {h} := by
    have e2 : ((bk1.set b2 ((bk1.getD b2 []) ++ [h])).flatten : Multiset HexCell) +
        (bk1.getD b2 [] : List HexCell) =
        ((bk1.flatten : Multiset HexCell) + {h}) + (bk1.getD b2 [] : List HexCell) := by
      rw [step2, ← Multiset.coe_add, Multiset.coe_singleton]
      abel
    exact add_right_cancel e2
  rw [step2a, step1a]

/-- Flattening `k` empty buckets gives no cells. -/
theorem flatten_replicate_nil {α : Type} : ∀ (k : Nat), (List.replicate k ([] : List α)).flatten = []
  | 0 => rfl
  | k + 1 => by rw [List.replicate_succ, List.flatten_cons, flatten_replicate_nil k]; rfl

/-! ## C4: the side-for-area function inverts the hexagon area formula -/

/-- HEX_CONST is positive. -/
theorem HEX_CONST_pos : (0 : ℝ) < HEX_CONST := by
  unfold HEX_CONST
  have h3 : (0 : ℝ) < Real.sqrt 3 := Real.sqrt_pos.mpr (by norm_num)
  linarith

/-- The source's `compute_hex_side_for_acres` is the spec's side-for-area
primitive applied to the acre count converted to square meters. -/
theorem compute_hex_side_for_acres_eq_sideForArea (a : ℝ) :
    compute_hex_side_for_acres a = sideForArea (a * ACRE_M2) := rfl

/-- C4: for every positive side length s, the side-for-area function applied
to the hexagon area of s returns s exactly: sideForArea is the inverse of
hex_area (the spec formula `sqrt(targetArea / (3√3/2))` against
`(3√3/2)·s²`, exact arithmetic standing in for floating tolerance). -/
theorem sideForArea_hex_area_roundtrip (s : ℝ) (hs : 0 < s) :
    sideForArea (hex_area s) = s := by
  unfold sideForArea hex_area
  rw [mul_div_cancel_left₀ _ (ne_of_gt HEX_CONST_pos)]
  exact Real.sqrt_sq hs.le

/-- Witness for C4 at s = 1. -/
theorem sideForArea_hex_area_roundtrip_witness :
    (0 : ℝ) < 1 ∧ sideForArea (hex_area 1) = 1 :=
  ⟨one_pos, sideForArea_hex_area_roundtrip 1 one_pos⟩

/-! ## C8: generated cell ids are 0..N-1 in generation order -/

/-- Ids produced by `clip_collect` starting from counter `n` are the
contiguous ascending run starting at `n`. -/
theorem clip_collect_ids (G : GeoModel) (farm : G.Poly) (sl : Bool) :
    ∀ (l : List (TransHex G.Poly)) (n : Nat),
      (clip_collect G farm sl l n).map GridCell.id =
        List.range' n (clip_collect G farm sl l n).length
  | [], n => rfl
  | h :: rest, n => by
    unfold clip_collect
    by_cases hi : G.intersects h.poly farm
    · rw [if_pos hi]
      by_cases hsl : sl
      · rw [if_pos hsl]
        by_cases harea : 1 < G.area (G.intersection h.poly farm)
        · rw [if_pos harea]
          simp only [List.map_cons, List.length_cons, List.range'_succ]
          rw [clip_collect_ids G farm sl rest (n + 1)]
        · rw [if_neg harea]
          exact clip_collect_ids G farm sl rest n
      · rw [if_neg hsl]
        simp only [List.map_cons, List.length_cons, List.range'_succ]
        rw [clip_collect_ids G farm sl rest (n + 1)]
    · rw [if_neg hi]
      exact clip_collect_ids G farm sl rest n

/-- C8: for every geometry model, boundary polygon and target cell area, the
ids of the cells returned by generate_hex_grid form the contiguous sequence
0..N-1 in generation order (N the number of kept cells; ids are assigned
after sliver exclusion), and in particular are unique. -/
theorem generate_hex_grid_ids (G : GeoModel) (farm_polygon : G.Poly)
    (cell_acres : ℚ) (sl : Bool) :
    (generate_hex_grid G farm_polygon cell_acres sl).map GridCell.id =
      List.range (generate_hex_grid G farm_polygon cell_acres sl).length ∧
    ((generate_hex_grid G farm_polygon cell_acres sl).map GridCell.id).Nodup := by
  have hmain : (generate_hex_grid G farm_polygon cell_acres sl).map GridCell.id =
      List.range (generate_hex_grid G farm_polygon cell_acres sl).length := by
    simp only [generate_hex_grid]
    split
    · rfl
    · rw [List.range_eq_range']
      exact clip_collect_ids G farm_polygon sl _ 0
  refine ⟨hmain, ?_⟩
  rw [hmain]
  exact List.nodup_range _

/-! ## C7: kept cell areas lie strictly above the sliver threshold and at
most the unclipped hexagon area -/

/-- Area bounds for every cell kept by `clip_collect` with sliver rejection
on, for hexagons whose polygon is the model hexagon at their center. -/
theorem clip_collect_area_bounds (G : GeoModel) (farm : G.Poly) (s : ℚ)
    (hinter : ∀ p q, G.area (G.intersection p q) ≤ G.area p) :
    ∀ (l : List (TransHex G.Poly)) (n : Nat),
      (∀ th ∈ l, th.poly = G.hex_center_to_polygon th.center.1 th.center.2 s) →
      ∀ cell ∈ clip_collect G farm true l n,
        1 < cell.area_m2 ∧
          cell.area_m2 ≤
            G.area (G.hex_center_to_polygon cell.center.1 cell.center.2 s)
  | [], _, _, cell, hcell => by cases hcell
  | th :: rest, n, hpoly, cell, hcell => by
    have hrest : ∀ th2 ∈ rest, th2.poly = G.hex_center_to_polygon th2.center.1 th2.center.2 s :=
      fun th2 h2 => hpoly th2 (List.mem_cons_of_mem th h2)
    unfold clip_collect at hcell
    by_cases hi : G.intersects th.poly farm
    · rw [if_pos hi, if_pos rfl] at hcell
      by_cases harea : 1 < G.area (G.intersection th.poly farm)
      · rw [if_pos harea] at hcell
        rcases List.mem_cons.mp hcell with hc | hc
        · subst hc
          refine ⟨harea, ?_⟩
          have hth : th.poly = G.hex_center_to_polygon th.center.1 th.center.2 s :=
            hpoly th (List.mem_cons_self th rest)
          calc G.area (G.intersection th.poly farm) ≤ G.area th.poly := hinter th.poly farm
            _ = G.area (G.hex_center_to_polygon th.center.1 th.center.2 s) := by rw [hth]
        · exact clip_collect_area_bounds G farm s hinter rest (n + 1) hrest cell hc
      · rw [if_neg harea] at hcell
        exact clip_collect_area_bounds G farm s hinter rest n hrest cell hcell
    · rw [if_neg hi] at hcell
      exact clip_collect_area_bounds G farm s hinter rest n hrest cell hcell

/-- C7: with sliver rejection enabled (the default) and an area function for
which intersecting can only shrink a polygon, every cell generate_hex_grid
returns has clipped area strictly greater than the 1 square meter sliver
threshold and at most the area of the unclipped regular hexagon of the same
side length (the hexagon rebuilt at the cell's own center). -/
theorem generate_hex_grid_area_bounds (G : GeoModel) (farm_polygon : G.Poly)
    (cell_acres : ℚ)
    (hinter : ∀ p q, G.area (G.intersection p q) ≤ G.area p)
    (cell : GridCell G.Poly)
    (hcell : cell ∈ generate_hex_grid G farm_polygon cell_acres true) :
    1 < cell.area_m2 ∧
      cell.area_m2 ≤ G.area (G.hex_center_to_polygon cell.center.1 cell.center.2
        (G.computeSide cell_acres)) := by
  simp only [generate_hex_grid] at hcell
  split at hcell
  · cases hcell
  · refine clip_collect_area_bounds G farm_polygon (G.computeSide cell_acres) hinter
      _ 0 ?_ cell hcell
    intro th hth
    rcases List.mem_map.mp hth with ⟨raw, _, hraw⟩
    rw [← hraw]

/-- A small concrete instance of the geometry interface, used to exercise
the grid theorems on a computable run: polygons are just their areas, the
intersection takes the minimum area, every polygon intersects every other,
and the farm bounding box is a degenerate point. -/
@[reducible] def ConcGeo : GeoModel where
  Poly := ℚ
  sqrt3 := 1000
  computeSide := fun _ => 1
  area := fun p => p
  intersects := fun _ _ => true
  intersection := fun p q => min p q
  bounds := fun _ => (0, 0, 0, 0)
  hex_center_to_polygon := fun _ _ s => 5 * s

/-- Witness for C7: a concrete cell of a concrete run of generate_hex_grid
satisfies both area bounds. -/
theorem generate_hex_grid_area_bounds_witness :
    1 < ({ id := 0, center := (-6500, -15/2), poly := (5 : ℚ), area_m2 := 5 } :
        GridCell ℚ).area_m2 ∧
    ({ id := 0, center := (-6500, -15/2), poly := (5 : ℚ), area_m2 := 5 } :
        GridCell ℚ).area_m2 ≤
      ConcGeo.area (ConcGeo.hex_center_to_polygon (-6500) (-15/2) (ConcGeo.computeSide (1/2))) :=
  generate_hex_grid_area_bounds ConcGeo (7 : ℚ) (1/2)
    (fun p q => min_le_left p q)
    { id := 0, center := (-6500, -15/2), poly := (5 : ℚ), area_m2 := 5 }
    (by decide)

/-! ## Order facts for the two sorting relations -/

theorem tuple_le_refl (x : ℚ × Nat) : tuple_le x x := Or.inr ⟨rfl, le_refl x.2⟩

theorem tuple_le_trans {x y z : ℚ × Nat} (hxy : tuple_le x y) (hyz : tuple_le y z) :
    tuple_le x z := by
  rcases hxy with h1 | ⟨e1, n1⟩
  · rcases hyz with h2 | ⟨e2, n2⟩
    · exact Or.inl (lt_trans h1 h2)
    · exact Or.inl (e2 ▸ h1)
  · rcases hyz with h2 | ⟨e2, n2⟩
    · exact Or.inl (e1 ▸ h2)
    · exact Or.inr ⟨e1.trans e2, le_trans n1 n2⟩

theorem tuple_le_total (x y : ℚ × Nat) : tuple_le x y ∨ tuple_le y x := by
  rcases lt_trichotomy x.1 y.1 with h | h | h
  · exact Or.inl (Or.inl h)
  · rcases Nat.le_total x.2 y.2 with hn | hn
    · exact Or.inl (Or.inr ⟨h, hn⟩)
    · exact Or.inr (Or.inr ⟨h.symm, hn⟩)
  · exact Or.inr (Or.inl h)

theorem tuple_le_antisymm {x y : ℚ × Nat} (hxy : tuple_le x y) (hyx : tuple_le y x) :
    x = y := by
  rcases hxy with h1 | ⟨e1, n1⟩
  · rcases hyx with h2 | ⟨e2, n2⟩
    · exact absurd h2 (not_lt_of_gt h1)
    · exact absurd h1 (e2 ▸ lt_irrefl y.1)
  · rcases hyx with h2 | ⟨e2, n2⟩
    · exact absurd h2 (e1 ▸ lt_irrefl x.1)
    · exact Prod.ext e1 (Nat.le_antisymm n1 n2)

instance : IsTotal (ℚ × Nat) tuple_le := ⟨tuple_le_total⟩

instance : IsTrans (ℚ × Nat) tuple_le := ⟨fun _ _ _ => tuple_le_trans⟩

instance (centroid : ℚ × ℚ) : IsTotal HexCell (farther centroid) :=
  ⟨fun h1 h2 => le_total (dist2 h2.center centroid) (dist2 h1.center centroid)⟩

instance (centroid : ℚ × ℚ) : IsTrans HexCell (farther centroid) :=
  ⟨fun _ _ _ hab hbc => le_trans hbc hab⟩

/-! ## Declarative reading of the rebalancing move rule (spec section 4.4) -/

/-- The spec's qualification rule: a receiving bucket qualifies iff it is
one of the other buckets and its current spare capacity (capacity minus
current workload) is at least half the candidate cell's workload. -/
def spec_qualifies (caps : List ℚ) (bk : List (List HexCell)) (k b : Nat)
    (h : HexCell) (b2 : Nat) : Prop :=
  b2 < k ∧ b2 ≠ b ∧
    workload h / 2 ≤ caps.getD b2 0 - bucket_workload (bk.getD b2 [])

/-- The spec's choice rule: among qualifying buckets pick the one whose
centroid is nearest to the cell, ties broken by lowest bucket index. -/
def spec_chooses (caps : List ℚ) (ccs : List (ℚ × ℚ)) (bk : List (List HexCell))
    (k b : Nat) (h : HexCell) (b2 : Nat) : Prop :=
  spec_qualifies caps bk k b h b2 ∧
  ∀ b2', spec_qualifies caps bk k b h b2' →
    (dist2 h.center (ccs.getD b2 (0, 0)) < dist2 h.center (ccs.getD b2' (0, 0)) ∨
     (dist2 h.center (ccs.getD b2 (0, 0)) = dist2 h.center (ccs.getD b2' (0, 0)) ∧ b2 ≤ b2'))

/-- The boolean filter the candidate scan implements. -/
def cand_pred (caps : List ℚ) (bk : List (List HexCell)) (b : Nat) (h : HexCell)
    (b2 : Nat) : Bool :=
  decide (b2 ≠ b) &&
    decide (workload h * (1 / 2) ≤ caps.getD b2 0 - bucket_workload (bk.getD b2 []))

/-- On any index list inside both `capacities` and `cluster_centers`, the
candidate scan succeeds and returns exactly the qualifying indices, in
order, paired with their centroid distances. -/
theorem collect_candidates_eq (caps : List ℚ) (ccs : List (ℚ × ℚ))
    (bk : List (List HexCell)) (b : Nat) (h : HexCell) :
    ∀ l : List Nat, (∀ b2 ∈ l, b2 < caps.length ∧ b2 < ccs.length) →
      collect_candidates caps ccs bk b h l =
        .ok ((l.filter (cand_pred caps bk b h)).map
          (fun b2 => (dist2 h.center (ccs.getD b2 (0, 0)), b2)))
  | [], _ => rfl
  | b2 :: rest, hmem => by
    have hb2 := hmem b2 (List.mem_cons_self b2 rest)
    have hrest : ∀ x ∈ rest, x < caps.length ∧ x < ccs.length :=
      fun x hx => hmem x (List.mem_cons_of_mem b2 hx)
    have hcap : caps[b2]? = some (caps.getD b2 0) := by
      rw [List.getElem?_eq_getElem hb2.1, List.getD_eq_getElem caps 0 hb2.1]
    have hcc : ccs[b2]? = some (ccs.getD b2 (0, 0)) := by
      rw [List.getElem?_eq_getElem hb2.2, List.getD_eq_getElem ccs (0, 0) hb2.2]
    unfold collect_candidates
    by_cases heq : b2 = b
    · rw [if_pos heq, collect_candidates_eq caps ccs bk b h rest hrest]
      rw [List.filter_cons_of_neg (by simp [cand_pred, heq])]
    · rw [if_neg heq, hcap]
      dsimp only
      by_cases hsp : workload h * (1 / 2) ≤ caps.getD b2 0 - bucket_workload (bk.getD b2 [])
      · rw [if_pos hsp, hcc]
        dsimp only
        rw [collect_candidates_eq caps ccs bk b h rest hrest]
        dsimp only
        have hpred : cand_pred caps bk b h b2 = true := by
          unfold cand_pred
          rw [Bool.and_eq_true, decide_eq_true_eq, decide_eq_true_eq]
          exact ⟨heq, hsp⟩
        rw [List.filter_cons_of_pos hpred, List.map_cons]
      · rw [if_neg hsp, collect_candidates_eq caps ccs bk b h rest hrest]
        have hpred : ¬cand_pred caps bk b h b2 = true := by
          unfold cand_pred
          rw [Bool.and_eq_true, decide_eq_true_eq, decide_eq_true_eq]
          exact fun hc => hsp hc.2
        rw [List.filter_cons_of_neg hpred]

/-- Membership in the produced candidate list, read back as the spec's
qualification rule (for index pool `range k`, with k covered by both
parameter lists). -/
theorem mem_candidates_iff (caps : List ℚ) (ccs : List (ℚ × ℚ))
    (bk : List (List HexCell)) (k b : Nat) (h : HexCell) (c : ℚ × Nat) :
    c ∈ ((List.range k).filter (cand_pred caps bk b h)).map
        (fun b2 => (dist2 h.center (ccs.getD b2 (0, 0)), b2)) ↔
      spec_qualifies caps bk k b h c.2 ∧ c.1 = dist2 h.center (ccs.getD c.2 (0, 0)) := by
  have hhalf : workload h / 2 = workload h * (1 / 2) := by ring
  rw [List.mem_map]
  constructor
  · rintro ⟨b2, hb2, rfl⟩
    rcases List.mem_filter.mp hb2 with ⟨hrange, hpred⟩
    have hk := List.mem_range.mp hrange
    unfold cand_pred at hpred
    rw [Bool.and_eq_true, decide_eq_true_eq, decide_eq_true_eq] at hpred
    exact ⟨⟨hk, hpred.1, by rw [hhalf]; exact hpred.2⟩, rfl⟩
  · rintro ⟨⟨hk, hne, hsp⟩, hc1⟩
    refine ⟨c.2, List.mem_filter.mpr ⟨List.mem_range.mpr hk, ?_⟩, ?_⟩
    · unfold cand_pred
      rw [Bool.and_eq_true, decide_eq_true_eq, decide_eq_true_eq]
      exact ⟨hne, by rw [← hhalf]; exact hsp⟩
    · rw [← hc1]

/-- The head of the ascending insertion sort of a tuple list is exactly a
lexicographic minimum of the list (`candidates.sort(); candidates[0]`). -/
theorem head_insertionSort_eq_min (cands : List (ℚ × Nat)) (c : ℚ × Nat) :
    (List.insertionSort tuple_le cands).head? = some c ↔
      c ∈ cands ∧ ∀ c2 ∈ cands, tuple_le c c2 := by
  constructor
  · intro hhead
    have hsorted : List.Sorted tuple_le (List.insertionSort tuple_le cands) :=
      List.sorted_insertionSort tuple_le cands
    obtain ⟨t, ht⟩ : ∃ t, List.insertionSort tuple_le cands = c :: t := by
      rcases hs : List.insertionSort tuple_le cands with _ | ⟨a, t2⟩
      · rw [hs] at hhead
        simp at hhead
      · rw [hs] at hhead
        have hac : a = c := Option.some.inj hhead
        exact ⟨t2, by rw [← hac]⟩
    have hmemc : c ∈ cands := by
      rw [← List.mem_insertionSort tuple_le, ht]
      exact List.mem_cons_self c t
    refine ⟨hmemc, ?_⟩
    intro c2 hc2
    rw [← List.mem_insertionSort tuple_le, ht] at hc2
    rw [ht] at hsorted
    rcases List.mem_cons.mp hc2 with rfl | hc2t
    · exact tuple_le_refl _
    · exact (List.sorted_cons.mp hsorted).1 c2 hc2t
  · rintro ⟨hmem, hmin⟩
    obtain ⟨a, t, ht⟩ : ∃ a t, List.insertionSort tuple_le cands = a :: t := by
      rcases hs : List.insertionSort tuple_le cands with _ | ⟨a2, t2⟩
      · have hc : c ∈ List.insertionSort tuple_le cands :=
          (List.mem_insertionSort tuple_le).mpr hmem
        rw [hs] at hc
        cases hc
      · exact ⟨a2, t2, rfl⟩
    have hsorted : List.Sorted tuple_le (List.insertionSort tuple_le cands) :=
      List.sorted_insertionSort tuple_le cands
    have hamem : a ∈ cands := by
      rw [← List.mem_insertionSort tuple_le, ht]
      exact List.mem_cons_self a t
    have hamin : ∀ c2 ∈ cands, tuple_le a c2 := by
      intro c2 hc2
      rw [← List.mem_insertionSort tuple_le, ht] at hc2
      rw [ht] at hsorted
      rcases List.mem_cons.mp hc2 with rfl | hc2t
      · exact tuple_le_refl _
      · exact (List.sorted_cons.mp hsorted).1 c2 hc2t
    have hac : a = c := tuple_le_antisymm (hamin c hmem) (hmin a hamem)
    rw [ht, hac]
    rfl

/-- Iff-characterization of the cell scan finding no movable cell: the scan
leaves the buckets unchanged exactly when no cell of the scanned list has
any qualifying receiving bucket. -/
theorem try_move_ok_false_iff (caps : List ℚ) (ccs : List (ℚ × ℚ)) (k b : Nat)
    (bk : List (List HexCell)) (hcaps : caps.length = k) (hccs : ccs.length = k) :
    ∀ (l : List HexCell) (bk0 : List (List HexCell)),
      try_move caps ccs k b bk l = .ok (bk0, false) ↔
        bk0 = bk ∧ ∀ h ∈ l, ∀ b2, ¬spec_qualifies caps bk k b h b2
  | [], bk0 => by
    unfold try_move
    constructor
    · intro hok
      injection hok with h1
      injection h1 with h2 h3
      exact ⟨h2.symm, fun h hf => absurd hf (List.not_mem_nil h)⟩
    · rintro ⟨rfl, _⟩
      rfl
  | h :: rest, bk0 => by
    have hbound : ∀ b2 ∈ List.range k, b2 < caps.length ∧ b2 < ccs.length := by
      intro b2 hb2
      have := List.mem_range.mp hb2
      omega
    unfold try_move
    rw [collect_candidates_eq caps ccs bk b h (List.range k) hbound]
    dsimp only
    cases hh : (List.insertionSort tuple_le
        (((List.range k).filter (cand_pred caps bk b h)).map
          (fun b2 => (dist2 h.center (ccs.getD b2 (0, 0)), b2)))).head? with
    | none =>
      have hnil : ((List.range k).filter (cand_pred caps bk b h)).map
          (fun b2 => (dist2 h.center (ccs.getD b2 (0, 0)), b2)) = [] := by
        have hperm := List.perm_insertionSort tuple_le
          (((List.range k).filter (cand_pred caps bk b h)).map
            (fun b2 => (dist2 h.center (ccs.getD b2 (0, 0)), b2)))
        rw [List.head?_eq_none_iff.mp hh] at hperm
        exact (List.Perm.nil_eq hperm).symm
      have hnoq : ∀ b2, ¬spec_qualifies caps bk k b h b2 := by
        intro b2 hq
        have : (dist2 h.center (ccs.getD b2 (0, 0)), b2) ∈
            ((List.range k).filter (cand_pred caps bk b h)).map
              (fun b2 => (dist2 h.center (ccs.getD b2 (0, 0)), b2)) :=
          (mem_candidates_iff caps ccs bk k b h _).mpr ⟨hq, rfl⟩
        rw [hnil] at this
        cases this
      rw [try_move_ok_false_iff caps ccs k b bk hcaps hccs rest bk0]
      constructor
      · rintro ⟨rfl, hrest⟩
        refine ⟨rfl, ?_⟩
        intro h2 hmem b2
        rcases List.mem_cons.mp hmem with rfl | hmem2
        · exact hnoq b2
        · exact hrest h2 hmem2 b2
      · rintro ⟨rfl, hall⟩
        exact ⟨rfl, fun h2 hmem b2 => hall h2 (List.mem_cons_of_mem h hmem) b2⟩
    | some c =>
      have hc := (head_insertionSort_eq_min _ c).mp hh
      have hcq := (mem_candidates_iff caps ccs bk k b h c).mp hc.1
      constructor
      · intro hok
        injection hok with h1
        injection h1 with h2 h3
        simp at h3
      · rintro ⟨rfl, hall⟩
        exact absurd hcq.1 (hall h (List.mem_cons_self h rest) c.2)

/-- Iff-characterization of the cell scan making a move: the scanned list
splits as `pre ++ h :: post` where no cell of `pre` has a qualifying
receiving bucket, `h` is moved, and the receiving bucket is the one the
spec's choice rule picks (nearest centroid, ties to the lowest index). -/
theorem try_move_ok_true_iff (caps : List ℚ) (ccs : List (ℚ × ℚ)) (k b : Nat)
    (bk : List (List HexCell)) (hcaps : caps.length = k) (hccs : ccs.length = k) :
    ∀ (l : List HexCell) (bk0 : List (List HexCell)),
      try_move caps ccs k b bk l = .ok (bk0, true) ↔
        ∃ pre h post b2, l = pre ++ h :: post ∧
          (∀ h2 ∈ pre, ∀ b2', ¬spec_qualifies caps bk k b h2 b2') ∧
          spec_chooses caps ccs bk k b h b2 ∧
          bk0 = move_cell bk b b2 h
  | [], bk0 => by
    unfold try_move
    constructor
    · intro hok
      injection hok with h1
      injection h1 with h2 h3
      simp at h3
    · rintro ⟨pre, h, post, b2, hdec, -, -, -⟩
      exact absurd hdec (by simp)
  | h :: rest, bk0 => by
    have hbound : ∀ b2 ∈ List.range k, b2 < caps.length ∧ b2 < ccs.length := by
      intro b2 hb2
      have := List.mem_range.mp hb2
      omega
    unfold try_move
    rw [collect_candidates_eq caps ccs bk b h (List.range k) hbound]
    dsimp only
    cases hh : (List.insertionSort tuple_le
        (((List.range k).filter (cand_pred caps bk b h)).map
          (fun b2 => (dist2 h.center (ccs.getD b2 (0, 0)), b2)))).head? with
    | none =>
      have hnil : ((List.range k).filter (cand_pred caps bk b h)).map
          (fun b2 => (dist2 h.center (ccs.getD b2 (0, 0)), b2)) = [] := by
        have hperm := List.perm_insertionSort tuple_le
          (((List.range k).filter (cand_pred caps bk b h)).map
            (fun b2 => (dist2 h.center (ccs.getD b2 (0, 0)), b2)))
        rw [List.head?_eq_none_iff.mp hh] at hperm
        exact (List.Perm.nil_eq hperm).symm
      have hnoq : ∀ b2, ¬spec_qualifies caps bk k b h b2 := by
        intro b2 hq
        have hmem : (dist2 h.center (ccs.getD b2 (0, 0)), b2) ∈
            ((List.range k).filter (cand_pred caps bk b h)).map
              (fun b2 => (dist2 h.center (ccs.getD b2 (0, 0)), b2)) :=
          (mem_candidates_iff caps ccs bk k b h _).mpr ⟨hq, rfl⟩
        rw [hnil] at hmem
        cases hmem
      rw [try_move_ok_true_iff caps ccs k b bk hcaps hccs rest bk0]
      constructor
      · rintro ⟨pre, h0, post, b2, hdec, hpre, hch, hbk0⟩
        refine ⟨h :: pre, h0, post, b2, by rw [List.cons_append, hdec], ?_, hch, hbk0⟩
        intro h2 hm b2'
        rcases List.mem_cons.mp hm with rfl | hm2
        · exact hnoq b2'
        · exact hpre h2 hm2 b2'
      · rintro ⟨pre, h0, post, b2, hdec, hpre, hch, hbk0⟩
        cases pre with
        | nil =>
          rw [List.nil_append] at hdec
          injection hdec with hh0 hpost
          exact absurd (hh0 ▸ hch.1) (hnoq b2)
        | cons p pre2 =>
          rw [List.cons_append] at hdec
          injection hdec with hph hrest
          refine ⟨pre2, h0, post, b2, hrest, ?_, hch, hbk0⟩
          exact fun h2 hm b2' => hpre h2 (List.mem_cons_of_mem p hm) b2'
    | some c =>
      have hc := (head_insertionSort_eq_min _ c).mp hh
      have hcq := (mem_candidates_iff caps ccs bk k b h c).mp hc.1
      have hchooses : spec_chooses caps ccs bk k b h c.2 := by
        refine ⟨hcq.1, ?_⟩
        intro b2' hq'
        have hmem2 : (dist2 h.center (ccs.getD b2' (0, 0)), b2') ∈
            ((List.range k).filter (cand_pred caps bk b h)).map
              (fun b2 => (dist2 h.center (ccs.getD b2 (0, 0)), b2)) :=
          (mem_candidates_iff caps ccs bk k b h _).mpr ⟨hq', rfl⟩
        have hle := hc.2 _ hmem2
        rcases hle with hlt | ⟨heq, hn⟩
        · left
          rw [← hcq.2]
          exact hlt
        · right
          exact ⟨by rw [← hcq.2]; exact heq, hn⟩
      constructor
      · intro hok
        injection hok with h1
        injection h1 with h2 h3
        exact ⟨[], h, rest, c.2, rfl,
          fun h2 hm => absurd hm (List.not_mem_nil h2), hchooses, h2.symm⟩
      · rintro ⟨pre, h0, post, b2, hdec, hpre, hch, hbk0⟩
        cases pre with
        | nil =>
          rw [List.nil_append] at hdec
          injection hdec with hh0 hpost
          subst hh0
          have hq2 := hch.1
          have hmem2 : (dist2 h.center (ccs.getD b2 (0, 0)), b2) ∈
              ((List.range k).filter (cand_pred caps bk b h)).map
                (fun b2 => (dist2 h.center (ccs.getD b2 (0, 0)), b2)) :=
            (mem_candidates_iff caps ccs bk k b h _).mpr ⟨hq2, rfl⟩
        -- mutual minimality forces the chosen pair to be the head
          have hle1 : tuple_le c (dist2 h.center (ccs.getD b2 (0, 0)), b2) := hc.2 _ hmem2
          have hle2 : tuple_le (dist2 h.center (ccs.getD b2 (0, 0)), b2) c := by
            rcases hch.2 c.2 hcq.1 with hlt | ⟨heq, hn⟩
            · left
              rw [hcq.2]
              exact hlt
            · right
              exact ⟨by rw [hcq.2]; exact heq, hn⟩
          have hpair : (dist2 h.center (ccs.getD b2 (0, 0)), b2) = c :=
            tuple_le_antisymm hle2 hle1
          have hb2c : b2 = c.2 := congrArg Prod.snd hpair
          rw [hbk0, hb2c]
        | cons p pre2 =>
          rw [List.cons_append] at hdec
          injection hdec with hph hrest
          exact absurd (hph ▸ hcq.1) (hpre p (List.mem_cons_self p pre2) c.2)

/-- On an over-capacity bucket, `process_bucket` is exactly the farthest-first
scan of that bucket's cells. -/
theorem process_bucket_over (caps : List ℚ) (ccs : List (ℚ × ℚ)) (k : Nat)
    (bk : List (List HexCell)) (b : Nat)
    (hcaps : caps.length = k) (hccs : ccs.length = k) (hb : b < k)
    (hover : caps.getD b 0 < bucket_workload (bk.getD b [])) :
    process_bucket caps ccs k bk b =
      try_move caps ccs k b bk
        (List.insertionSort (farther (ccs.getD b (0, 0))) (bk.getD b [])) := by
  have hbcap : b < caps.length := by omega
  have hbcc : b < ccs.length := by omega
  have hcap : caps[b]? = some (caps.getD b 0) := by
    rw [List.getElem?_eq_getElem hbcap, List.getD_eq_getElem caps 0 hbcap]
  have hcc : ccs[b]? = some (ccs.getD b (0, 0)) := by
    rw [List.getElem?_eq_getElem hbcc, List.getD_eq_getElem ccs (0, 0) hbcc]
  unfold process_bucket
  rw [hcap]
  dsimp only
  rw [if_neg (not_le.mpr hover), hcc]

/-- A bucket whose workload fits its capacity is skipped unchanged. -/
theorem process_bucket_within (caps : List ℚ) (ccs : List (ℚ × ℚ)) (k : Nat)
    (bk : List (List HexCell)) (b : Nat)
    (hcaps : caps.length = k) (hb : b < k)
    (hin : bucket_workload (bk.getD b []) ≤ caps.getD b 0) :
    process_bucket caps ccs k bk b = .ok (bk, false) := by
  have hbcap : b < caps.length := by omega
  have hcap : caps[b]? = some (caps.getD b 0) := by
    rw [List.getElem?_eq_getElem hbcap, List.getD_eq_getElem caps 0 hbcap]
  unfold process_bucket
  rw [hcap]
  dsimp only
  rw [if_pos hin]

/-- Moving a cell does not change the number of buckets. -/
theorem move_cell_length (bk : List (List HexCell)) (b b2 : Nat) (h : HexCell) :
    (move_cell bk b b2 h).length = bk.length := by
  unfold move_cell
  rw [List.length_set, List.length_set]

/-- The cell scan always succeeds (no Python exception) when the index pool
is `range k` and both parameter lists have length k; it preserves the
multiset of all bucketed cells and the bucket count. -/
theorem try_move_ok (caps : List ℚ) (ccs : List (ℚ × ℚ)) (k b : Nat)
    (bk : List (List HexCell)) (hcaps : caps.length = k) (hccs : ccs.length = k)
    (hbk : bk.length = k) (hb : b < k) :
    ∀ l : List HexCell, (∀ h ∈ l, h ∈ bk.getD b []) →
      ∃ bk2 ch, try_move caps ccs k b bk l = .ok (bk2, ch) ∧ bk2.length = k ∧
        (bk2.flatten : Multiset HexCell) = (bk.flatten : Multiset HexCell)
  | [], _ => ⟨bk, false, rfl, hbk, rfl⟩
  | h :: rest, hmem => by
    have hbound : ∀ b2 ∈ List.range k, b2 < caps.length ∧ b2 < ccs.length := by
      intro b2 hb2
      have := List.mem_range.mp hb2
      omega
    unfold try_move
    rw [collect_candidates_eq caps ccs bk b h (List.range k) hbound]
    dsimp only
    cases hh : (List.insertionSort tuple_le
        (((List.range k).filter (cand_pred caps bk b h)).map
          (fun b2 => (dist2 h.center (ccs.getD b2 (0, 0)), b2)))).head? with
    | none =>
      exact try_move_ok caps ccs k b bk hcaps hccs hbk hb rest
        (fun h2 hm => hmem h2 (List.mem_cons_of_mem h hm))
    | some c =>
      have hcq := (mem_candidates_iff caps ccs bk k b h c).mp
        ((head_insertionSort_eq_min _ c).mp hh).1
      refine ⟨move_cell bk b c.2 h, true, rfl, ?_, ?_⟩
      · rw [move_cell_length]
        exact hbk
      · exact move_cell_flatten bk b c.2 h (by omega) (by have := hcq.1.1; omega)
          (hmem h (List.mem_cons_self h rest))

/-- Each bucket step succeeds and preserves the bucketed cells. -/
theorem process_bucket_ok (caps : List ℚ) (ccs : List (ℚ × ℚ)) (k : Nat)
    (hcaps : caps.length = k) (hccs : ccs.length = k)
    (bk : List (List HexCell)) (hbk : bk.length = k) (b : Nat) (hb : b < k) :
    ∃ bk2 ch, process_bucket caps ccs k bk b = .ok (bk2, ch) ∧ bk2.length = k ∧
      (bk2.flatten : Multiset HexCell) = (bk.flatten : Multiset HexCell) := by
  by_cases hin : bucket_workload (bk.getD b []) ≤ caps.getD b 0
  · exact ⟨bk, false, process_bucket_within caps ccs k bk b hcaps hb hin, hbk, rfl⟩
  · rw [process_bucket_over caps ccs k bk b hcaps hccs hb (not_le.mp hin)]
    exact try_move_ok caps ccs k b bk hcaps hccs hbk hb _
      (fun h hm => (List.mem_insertionSort (farther (ccs.getD b (0, 0)))).mp hm)

/-- A full pass succeeds and preserves the bucketed cells. -/
theorem run_pass_ok (caps : List ℚ) (ccs : List (ℚ × ℚ)) (k : Nat)
    (hcaps : caps.length = k) (hccs : ccs.length = k) :
    ∀ l : List Nat, (∀ b ∈ l, b < k) →
      ∀ (bk : List (List HexCell)) (ch : Bool), bk.length = k →
      ∃ bk2 ch2, run_pass caps ccs k l bk ch = .ok (bk2, ch2) ∧ bk2.length = k ∧
        (bk2.flatten : Multiset HexCell) = (bk.flatten : Multiset HexCell)
  | [], _, bk, ch, hbk => ⟨bk, ch, rfl, hbk, rfl⟩
  | b :: rest, hmem, bk, ch, hbk => by
    obtain ⟨bk2, ch2, hpb, hlen2, hflat2⟩ :=
      process_bucket_ok caps ccs k hcaps hccs bk hbk b (hmem b (List.mem_cons_self b rest))
    unfold run_pass
    rw [hpb]
    dsimp only
    obtain ⟨bk3, ch3, hrp, hlen3, hflat3⟩ :=
      run_pass_ok caps ccs k hcaps hccs rest
        (fun x hx => hmem x (List.mem_cons_of_mem b hx)) bk2 (ch || ch2) hlen2
    exact ⟨bk3, ch3, hrp, hlen3, by rw [hflat3, hflat2]⟩

/-- The rebalancing loop succeeds within its pass budget and preserves the
bucketed cells. -/
theorem rebalance_ok (caps : List ℚ) (ccs : List (ℚ × ℚ)) (k : Nat)
    (hcaps : caps.length = k) (hccs : ccs.length = k) :
    ∀ (fuel : Nat) (bk : List (List HexCell)), bk.length = k →
      ∃ bk2 n, rebalance caps ccs k fuel bk = .ok (bk2, n) ∧ n ≤ fuel ∧ bk2.length = k ∧
        (bk2.flatten : Multiset HexCell) = (bk.flatten : Multiset HexCell)
  | 0, bk, hbk => ⟨bk, 0, rfl, le_refl 0, hbk, rfl⟩
  | fuel + 1, bk, hbk => by
    obtain ⟨bk2, ch2, hrp, hlen2, hflat2⟩ :=
      run_pass_ok caps ccs k hcaps hccs (List.range k)
        (fun b hb => List.mem_range.mp hb) bk false hbk
    unfold rebalance
    rw [hrp]
    dsimp only
    cases ch2 with
    | false => exact ⟨bk2, 1, rfl, by omega, hlen2, hflat2⟩
    | true =>
      obtain ⟨bk3, n3, hrb, hn3, hlen3, hflat3⟩ := rebalance_ok caps ccs k hcaps hccs fuel bk2 hlen2
      rw [hrb]
      exact ⟨bk3, n3 + 1, rfl, by omega, hlen3, by rw [hflat3, hflat2]⟩

/-- Bucket building succeeds under the KMeans label contract, and the built
buckets hold exactly the consumed cells. -/
theorem build_buckets_ok (cells : List HexCell) (k : Nat) :
    ∀ (labels : List Nat) (idx : Nat) (bk : List (List HexCell)),
      (∀ lab ∈ labels, lab < k) → idx + labels.length ≤ cells.length → bk.length = k →
      ∃ bk2, build_buckets cells k labels idx bk = .ok bk2 ∧ bk2.length = k ∧
        (bk2.flatten : Multiset HexCell) =
          (bk.flatten : Multiset HexCell) + ((cells.drop idx).take labels.length : List HexCell)
  | [], idx, bk, _, _, hbk => ⟨bk, rfl, hbk, by simp⟩
  | lab :: rest, idx, bk, hlab, hlen, hbk => by
    have hidx : idx < cells.length := by
      simp only [List.length_cons] at hlen
      omega
    have hcell : cells[idx]? = some cells[idx] := List.getElem?_eq_getElem hidx
    have hlabk : lab < k := hlab lab (List.mem_cons_self lab rest)
    unfold build_buckets
    rw [hcell]
    dsimp only
    rw [if_pos hlabk]
    obtain ⟨bk2, hbb, hlen2, hflat2⟩ := build_buckets_ok cells k rest (idx + 1)
      (bk.set lab ((bk.getD lab []) ++ [cells[idx]]))
      (fun l hl => hlab l (List.mem_cons_of_mem lab hl))
      (by simp only [List.length_cons] at hlen; omega)
      (by rw [List.length_set]; exact hbk)
    refine ⟨bk2, hbb, hlen2, ?_⟩
    rw [hflat2]
    have hstep := flatten_set_coe bk lab ((bk.getD lab []) ++ [cells[idx]]) (by omega)
    have hnew : ((bk.set lab ((bk.getD lab []) ++ [cells[idx]])).flatten : Multiset HexCell)
        = (bk.flatten : Multiset HexCell) + {cells[idx]} := by
      have e : ((bk.set lab ((bk.getD lab []) ++ [cells[idx]])).flatten : Multiset HexCell) +
          ((bk.getD lab [] : List HexCell) : Multiset HexCell) =
          ((bk.flatten : Multiset HexCell) + {cells[idx]}) +
            ((bk.getD lab [] : List HexCell) : Multiset HexCell) := by
        rw [hstep, ← Multiset.coe_add, Multiset.coe_singleton]
        abel
      exact add_right_cancel e
    rw [hnew]
    have hdrop : cells.drop idx = cells[idx] :: cells.drop (idx + 1) :=
      List.drop_eq_getElem_cons hidx
    rw [hdrop, List.length_cons, List.take_succ_cons, ← Multiset.cons_coe,
      ← Multiset.singleton_add]
    abel

/-- The capacity written for one vehicle: an externally supplied value is
kept, otherwise the proportional formula is applied. -/
def cap_value (total bs : ℚ) (u : Uav) : ℚ :=
  u.capacity_workload.getD (total * (u.battery_pct.getD 1 / bs))

/-- One capacity update step, provided it cannot divide by zero. -/
theorem update_capacity_ok (total bs : ℚ) (u : Uav)
    (hok : bs ≠ 0 ∨ u.capacity_workload.isSome) :
    update_capacity total bs u =
      .ok { u with capacity_workload := some (cap_value total bs u) } := by
  obtain ⟨uid, ub, uc⟩ := u
  unfold update_capacity cap_value
  dsimp only
  cases uc with
  | some c => rfl
  | none =>
    rcases hok with hbs | hsome
    · rw [if_neg hbs]
      rfl
    · simp at hsome

/-- The capacity loop succeeds and is a pointwise map. -/
theorem compute_capacities_aux_ok (total bs : ℚ) :
    ∀ l : List Uav, (∀ u ∈ l, bs ≠ 0 ∨ u.capacity_workload.isSome) →
      compute_capacities_aux total bs l =
        .ok (l.map (fun u => { u with capacity_workload := some (cap_value total bs u) }))
  | [], _ => rfl
  | u :: rest, hcond => by
    unfold compute_capacities_aux
    rw [update_capacity_ok total bs u (hcond u (List.mem_cons_self u rest))]
    dsimp only
    rw [compute_capacities_aux_ok total bs rest
      (fun v hv => hcond v (List.mem_cons_of_mem u hv))]
    rfl

/-- The vehicle list as the capacity loop leaves it: every vehicle gets its
`cap_value` written into `capacity_workload`, all other fields untouched. -/
def with_capacities (uavs : List Uav) (total : ℚ) : List Uav :=
  uavs.map (fun u =>
    { u with capacity_workload := some (cap_value total (battery_sum uavs) u) })

/-- Lines 35-41 in closed form: under the data-model precondition (positive
battery sum, or all capacities supplied), the vehicle list after the call is
a pointwise update writing `cap_value` into `capacity_workload`. -/
theorem compute_capacities_ok (uavs : List Uav) (total : ℚ)
    (hcap : battery_sum uavs ≠ 0 ∨ ∀ u ∈ uavs, u.capacity_workload.isSome) :
    compute_capacities uavs total = .ok (with_capacities uavs total) := by
  unfold with_capacities
  unfold compute_capacities
  apply compute_capacities_aux_ok
  intro u hu
  rcases hcap with hbs | hall
  · exact Or.inl hbs
  · exact Or.inr (hall u hu)

/-- The assignment lists are the buckets, in index order. -/
theorem mk_output_assigned : ∀ (uavs : List Uav) (i : Nat) (bk : List (List HexCell)),
    i + uavs.length = bk.length →
    (mk_output uavs i bk).1.map Prod.snd = bk.drop i
  | [], i, bk, hlen => by
    unfold mk_output
    symm
    apply List.drop_eq_nil_of_le
    simp only [List.length_nil] at hlen
    omega
  | u :: rest, i, bk, hlen => by
    have hi : i < bk.length := by
      simp only [List.length_cons] at hlen
      omega
    unfold mk_output
    dsimp only
    rw [List.map_cons]
    rw [mk_output_assigned rest (i + 1) bk
      (by simp only [List.length_cons] at hlen; omega)]
    rw [List.getD_eq_getElem bk [] hi, List.drop_eq_getElem_cons hi]

/-- The per-vehicle cell counts are the bucket lengths, in index order. -/
theorem mk_output_counts : ∀ (uavs : List Uav) (i : Nat) (bk : List (List HexCell)),
    i + uavs.length = bk.length →
    (mk_output uavs i bk).2.map (fun p => p.2.count_hexes) = (bk.drop i).map List.length
  | [], i, bk, hlen => by
    unfold mk_output
    rw [List.drop_eq_nil_of_le (by simp only [List.length_nil] at hlen; omega)]
    rfl
  | u :: rest, i, bk, hlen => by
    have hi : i < bk.length := by
      simp only [List.length_cons] at hlen
      omega
    unfold mk_output
    dsimp only
    rw [List.map_cons]
    rw [mk_output_counts rest (i + 1) bk (by simp only [List.length_cons] at hlen; omega)]
    rw [List.getD_eq_getElem bk [] hi, List.drop_eq_getElem_cons hi]
    rfl

/-- The per-vehicle workloads are the bucket workloads, in index order. -/
theorem mk_output_workloads : ∀ (uavs : List Uav) (i : Nat) (bk : List (List HexCell)),
    i + uavs.length = bk.length →
    (mk_output uavs i bk).2.map (fun p => p.2.workload) = (bk.drop i).map bucket_workload
  | [], i, bk, hlen => by
    unfold mk_output
    rw [List.drop_eq_nil_of_le (by simp only [List.length_nil] at hlen; omega)]
    rfl
  | u :: rest, i, bk, hlen => by
    have hi : i < bk.length := by
      simp only [List.length_cons] at hlen
      omega
    unfold mk_output
    dsimp only
    rw [List.map_cons]
    rw [mk_output_workloads rest (i + 1) bk (by simp only [List.length_cons] at hlen; omega)]
    rw [List.getD_eq_getElem bk [] hi, List.drop_eq_getElem_cons hi]
    rfl

/-- Pipeline form of a successful run: under the KMeans output contract
(every label below k, exactly k centroids, one label per cell), k equal to
the vehicle count, the data-model battery precondition and a positive total
workload, every stage succeeds and the final buckets hold exactly the
input cells. -/
theorem assign_hexes_ok (hex_cells : List HexCell) (uavs : List Uav)
    (labels : List Nat) (cluster_centers : List (ℚ × ℚ)) (kArg : Option Nat)
    (hk : kArg.getD uavs.length = uavs.length)
    (hlab : ∀ lab ∈ labels, lab < uavs.length)
    (hlen : labels.length = hex_cells.length)
    (hccs : cluster_centers.length = uavs.length)
    (hcap : battery_sum uavs ≠ 0 ∨ ∀ u ∈ uavs, u.capacity_workload.isSome)
    (htot : 0 < total_workload hex_cells) :
    ∃ bkF n,
      assign_hexes_to_uavs hex_cells uavs labels cluster_centers kArg =
        .ok (mk_output (with_capacities uavs (total_workload hex_cells)) 0 bkF) ∧
      bkF.length = uavs.length ∧
      (bkF.flatten : Multiset HexCell) = (hex_cells : List HexCell) ∧
      n ≤ max 200 (10 * uavs.length) := by
  have hcc := compute_capacities_ok uavs (total_workload hex_cells) hcap
  obtain ⟨bk0, hbb, hlen0, hflat0⟩ := build_buckets_ok hex_cells uavs.length labels 0
    (List.replicate uavs.length []) hlab (by omega) (List.length_replicate _ _)
  have hflat0c : (bk0.flatten : Multiset HexCell) = (hex_cells : List HexCell) := by
    rw [hflat0, flatten_replicate_nil, List.drop_zero, hlen, List.take_length]
    rfl
  have hcapslen : ((with_capacities uavs (total_workload hex_cells)).map
      (fun u => u.capacity_workload.getD 0)).length = uavs.length := by
    rw [List.length_map]
    unfold with_capacities
    rw [List.length_map]
  obtain ⟨bkF, n, hrb, hn, hlenF, hflatF⟩ := rebalance_ok
    ((with_capacities uavs (total_workload hex_cells)).map
      (fun u => u.capacity_workload.getD 0))
    cluster_centers uavs.length hcapslen hccs (max 200 (10 * uavs.length)) bk0 hlen0
  refine ⟨bkF, n, ?_, hlenF, by rw [hflatF, hflat0c], hn⟩
  unfold assign_hexes_to_uavs
  dsimp only
  rw [hk, if_neg (not_le.mpr htot), hcc]
  dsimp only
  rw [hbb]
  dsimp only
  rw [hrb]

/-- C1: for every run of the cluster assigner with k equal to the number of
vehicles (explicitly or by default), under the KMeans output contract and
the data-model preconditions, the returned assignment is an exact partition
of the input cells: the concatenation of all vehicles' lists is a
permutation of the input (no duplicates, no omissions), the cell counts sum
to the input count, and the per-vehicle workloads sum to the total
workload. -/
theorem assign_exact_partition (hex_cells : List HexCell) (uavs : List Uav)
    (labels : List Nat) (cluster_centers : List (ℚ × ℚ)) (kArg : Option Nat)
    (hk : kArg.getD uavs.length = uavs.length)
    (hlab : ∀ lab ∈ labels, lab < uavs.length)
    (hlen : labels.length = hex_cells.length)
    (hccs : cluster_centers.length = uavs.length)
    (hcap : battery_sum uavs ≠ 0 ∨ ∀ u ∈ uavs, u.capacity_workload.isSome)
    (htot : 0 < total_workload hex_cells) :
    ∃ res, assign_hexes_to_uavs hex_cells uavs labels cluster_centers kArg = .ok res ∧
      ((res.1.map Prod.snd).flatten : Multiset HexCell) = (hex_cells : List HexCell) ∧
      (res.2.map (fun p => p.2.count_hexes)).sum = hex_cells.length ∧
      (res.2.map (fun p => p.2.workload)).sum = total_workload hex_cells := by
  obtain ⟨bkF, n, hok, hlenF, hflatF, hn⟩ :=
    assign_hexes_ok hex_cells uavs labels cluster_centers kArg hk hlab hlen hccs hcap htot
  have hlen2 : (with_capacities uavs (total_workload hex_cells)).length + 0 =
      bkF.length := by
    unfold with_capacities
    rw [List.length_map, hlenF]
    omega
  have hperm : bkF.flatten.Perm hex_cells := Multiset.coe_eq_coe.mp hflatF
  refine ⟨_, hok, ?_, ?_, ?_⟩
  · rw [mk_output_assigned _ 0 bkF (by omega), List.drop_zero]
    exact hflatF
  · rw [mk_output_counts _ 0 bkF (by omega), List.drop_zero, ← List.length_flatten]
    exact hperm.length_eq
  · rw [mk_output_workloads _ 0 bkF (by omega), List.drop_zero]
    have h1 : bkF.map bucket_workload = (bkF.map (List.map workload)).map List.sum := by
      rw [List.map_map]
      rfl
    rw [h1, ← List.sum_flatten, ← List.map_flatten]
    exact List.Perm.sum_eq (hperm.map workload)

/-- C2: with valid vehicles (per the data model) and the KMeans output
contract, assign_hexes_to_uavs raises an error if and only if the total
workload is nonpositive, and that error is the zero-workload ValueError (the
spec's ZeroWorkloadError); in particular an infeasible capacity
configuration never raises: a best-effort partition is returned. -/
theorem assign_error_iff_zero_workload (hex_cells : List HexCell) (uavs : List Uav)
    (labels : List Nat) (cluster_centers : List (ℚ × ℚ)) (kArg : Option Nat)
    (hk : kArg.getD uavs.length = uavs.length)
    (hlab : ∀ lab ∈ labels, lab < uavs.length)
    (hlen : labels.length = hex_cells.length)
    (hccs : cluster_centers.length = uavs.length)
    (hcap : battery_sum uavs ≠ 0 ∨ ∀ u ∈ uavs, u.capacity_workload.isSome) :
    ((∃ e, assign_hexes_to_uavs hex_cells uavs labels cluster_centers kArg = .error e) ↔
      total_workload hex_cells ≤ 0) ∧
    (total_workload hex_cells ≤ 0 →
      assign_hexes_to_uavs hex_cells uavs labels cluster_centers kArg =
        .error .zeroWorkload) := by
  have herr : total_workload hex_cells ≤ 0 →
      assign_hexes_to_uavs hex_cells uavs labels cluster_centers kArg =
        .error .zeroWorkload := by
    intro hle
    unfold assign_hexes_to_uavs
    dsimp only
    rw [if_pos hle]
  refine ⟨⟨?_, fun hle => ⟨.zeroWorkload, herr hle⟩⟩, herr⟩
  rintro ⟨e, he⟩
  by_contra hgt
  push_neg at hgt
  obtain ⟨bkF, n, hok, -, -, -⟩ :=
    assign_hexes_ok hex_cells uavs labels cluster_centers kArg hk hlab hlen hccs hcap hgt
  rw [hok] at he
  cases he

/-- C3: for every vehicle without an externally supplied capacity_workload,
the capacity computation of assign_hexes_to_uavs (lines 35-41) writes
totalWorkload × battery_fraction / Σ battery_fraction; an externally
supplied capacity_workload is left untouched (the formula is skipped); and
two vehicles with equal battery fraction and no supplied capacity receive
equal computed capacity (exact arithmetic standing in for floating
tolerance). -/
theorem compute_capacities_proportional (uavs : List Uav) (total : ℚ)
    (hbs : battery_sum uavs ≠ 0) :
    compute_capacities uavs total = .ok (with_capacities uavs total) ∧
    (∀ u ∈ uavs, u.capacity_workload = none →
      cap_value total (battery_sum uavs) u =
        total * (u.battery_pct.getD 1 / battery_sum uavs)) ∧
    (∀ u ∈ uavs, ∀ c, u.capacity_workload = some c →
      cap_value total (battery_sum uavs) u = c) ∧
    (∀ u1 ∈ uavs, ∀ u2 ∈ uavs, u1.battery_pct = u2.battery_pct →
      u1.capacity_workload = none → u2.capacity_workload = none →
      cap_value total (battery_sum uavs) u1 = cap_value total (battery_sum uavs) u2) := by
  refine ⟨compute_capacities_ok uavs total (Or.inl hbs), ?_, ?_, ?_⟩
  · intro u hu hc
    unfold cap_value
    rw [hc]
    rfl
  · intro u hu c hc
    unfold cap_value
    rw [hc]
    rfl
  · intro u1 h1 u2 h2 hb hc1 hc2
    unfold cap_value
    rw [hc1, hc2, hb]

/-- C9: observable frame of the call: the vehicle list after the call is a
pointwise record update writing only capacity_workload (computed when
absent, the supplied value kept when present); id and battery_pct are
untouched; and every cell record in the returned assignment is one of the
caller's input cell records, unchanged. -/
theorem assign_frame_effects (hex_cells : List HexCell) (uavs : List Uav)
    (labels : List Nat) (cluster_centers : List (ℚ × ℚ)) (kArg : Option Nat)
    (hk : kArg.getD uavs.length = uavs.length)
    (hlab : ∀ lab ∈ labels, lab < uavs.length)
    (hlen : labels.length = hex_cells.length)
    (hccs : cluster_centers.length = uavs.length)
    (hcap : battery_sum uavs ≠ 0 ∨ ∀ u ∈ uavs, u.capacity_workload.isSome)
    (htot : 0 < total_workload hex_cells) :
    ∃ res,
      assign_hexes_to_uavs hex_cells uavs labels cluster_centers kArg = .ok res ∧
      compute_capacities uavs (total_workload hex_cells) =
        .ok (with_capacities uavs (total_workload hex_cells)) ∧
      (∀ u ∈ uavs, ∀ c, u.capacity_workload = some c →
        cap_value (total_workload hex_cells) (battery_sum uavs) u = c) ∧
      (with_capacities uavs (total_workload hex_cells)).map Uav.id = uavs.map Uav.id ∧
      (with_capacities uavs (total_workload hex_cells)).map Uav.battery_pct =
        uavs.map Uav.battery_pct ∧
      (∀ p ∈ res.1, ∀ cell ∈ p.2, cell ∈ hex_cells) := by
  obtain ⟨bkF, n, hok, hlenF, hflatF, hn⟩ :=
    assign_hexes_ok hex_cells uavs labels cluster_centers kArg hk hlab hlen hccs hcap htot
  refine ⟨_, hok, compute_capacities_ok uavs _ hcap, ?_, ?_, ?_, ?_⟩
  · intro u hu c hc
    unfold cap_value
    rw [hc]
    rfl
  · unfold with_capacities
    rw [List.map_map]
    rfl
  · unfold with_capacities
    rw [List.map_map]
    rfl
  · intro p hp cell hcell
    have hmk : (mk_output (with_capacities uavs (total_workload hex_cells)) 0
        bkF).1.map Prod.snd = bkF := by
      rw [mk_output_assigned (with_capacities uavs (total_workload hex_cells)) 0 bkF
        (by unfold with_capacities; rw [List.length_map, hlenF]; omega), List.drop_zero]
    have hsnd : p.2 ∈ bkF := by
      rw [← hmk]
      exact List.mem_map_of_mem Prod.snd hp
    have hmemflat : cell ∈ bkF.flatten := List.mem_flatten.mpr ⟨p.2, hsnd, hcell⟩
    have hperm : bkF.flatten.Perm hex_cells := Multiset.coe_eq_coe.mp hflatF
    exact hperm.mem_iff.mp hmemflat

/-- C5: iff-characterization of one over-capacity bucket step against the
spec's rules.  First conjunct: the scanned cell list is the bucket sorted by
descending distance from the bucket's clustering centroid (sortedness and
permutation).  Second: the step makes no move (buckets returned unchanged,
flag false) exactly when no cell of the bucket has any qualifying receiver
(spare capacity at least half the cell's workload).  Third: the step makes a
move exactly when the first cell of the descending-distance order with a
qualifying receiver is moved to the qualifying bucket of nearest centroid
(ties to the lowest index), and nothing else changes; only that one cell is
evaluated further, so workloads are recomputed with fresh state before the
next over-capacity check of the pass. -/
theorem process_bucket_move_rule (caps : List ℚ) (ccs : List (ℚ × ℚ)) (k : Nat)
    (bk : List (List HexCell)) (b : Nat)
    (hcaps : caps.length = k) (hccs : ccs.length = k) (hb : b < k)
    (hover : caps.getD b 0 < bucket_workload (bk.getD b [])) :
    (List.Sorted (farther (ccs.getD b (0, 0)))
        (List.insertionSort (farther (ccs.getD b (0, 0))) (bk.getD b [])) ∧
      (List.insertionSort (farther (ccs.getD b (0, 0))) (bk.getD b [])).Perm
        (bk.getD b [])) ∧
    (∀ bk0, process_bucket caps ccs k bk b = .ok (bk0, false) ↔
      bk0 = bk ∧ ∀ h ∈ bk.getD b [], ∀ b2, ¬spec_qualifies caps bk k b h b2) ∧
    (∀ bk0, process_bucket caps ccs k bk b = .ok (bk0, true) ↔
      ∃ pre h post b2,
        List.insertionSort (farther (ccs.getD b (0, 0))) (bk.getD b []) =
          pre ++ h :: post ∧
        (∀ h2 ∈ pre, ∀ b2', ¬spec_qualifies caps bk k b h2 b2') ∧
        spec_chooses caps ccs bk k b h b2 ∧
        bk0 = move_cell bk b b2 h) := by
  refine ⟨⟨List.sorted_insertionSort _ _, List.perm_insertionSort _ _⟩, ?_, ?_⟩
  · intro bk0
    rw [process_bucket_over caps ccs k bk b hcaps hccs hb hover,
      try_move_ok_false_iff caps ccs k b bk hcaps hccs _ bk0]
    constructor
    · rintro ⟨rfl, hall⟩
      exact ⟨rfl, fun h hm b2 => hall h ((List.mem_insertionSort _).mpr hm) b2⟩
    · rintro ⟨rfl, hall⟩
      exact ⟨rfl, fun h hm b2 => hall h ((List.mem_insertionSort _).mp hm) b2⟩
  · intro bk0
    rw [process_bucket_over caps ccs k bk b hcaps hccs hb hover,
      try_move_ok_true_iff caps ccs k b bk hcaps hccs _ bk0]

/-- A pass over buckets whose workloads all fit their capacities makes no
move and leaves everything unchanged. -/
theorem run_pass_no_moves (caps : List ℚ) (ccs : List (ℚ × ℚ)) (k : Nat)
    (hcaps : caps.length = k) :
    ∀ l : List Nat, (∀ b ∈ l, b < k) →
      ∀ (bk : List (List HexCell)) (ch : Bool),
      (∀ b, b < k → bucket_workload (bk.getD b []) ≤ caps.getD b 0) →
      run_pass caps ccs k l bk ch = .ok (bk, ch)
  | [], _, bk, ch, _ => rfl
  | b :: rest, hmem, bk, ch, hin => by
    have hbk : b < k := hmem b (List.mem_cons_self b rest)
    unfold run_pass
    rw [process_bucket_within caps ccs k bk b hcaps hbk (hin b hbk)]
    dsimp only
    rw [Bool.or_false]
    exact run_pass_no_moves caps ccs k hcaps rest
      (fun x hx => hmem x (List.mem_cons_of_mem b hx)) bk ch hin

/-- C6: the rebalancing loop always terminates within the iteration budget
max(200, 10·k) (the fuel assign_hexes_to_uavs passes to rebalance): it
returns after at most that many passes; a pass over buckets none of which
exceeds its capacity makes no move; and the loop stops as soon as a full
pass makes no move, after exactly that one extra pass.  Reaching a fully
feasible partition is not guaranteed and is not claimed. -/
theorem rebalance_terminates (caps : List ℚ) (ccs : List (ℚ × ℚ)) (k : Nat)
    (hcaps : caps.length = k) (hccs : ccs.length = k) :
    (∀ bk : List (List HexCell), bk.length = k →
      ∃ bkF n, rebalance caps ccs k (max 200 (10 * k)) bk = .ok (bkF, n) ∧
        n ≤ max 200 (10 * k)) ∧
    (∀ bk : List (List HexCell),
      (∀ b, b < k → bucket_workload (bk.getD b []) ≤ caps.getD b 0) →
      run_pass caps ccs k (List.range k) bk false = .ok (bk, false)) ∧
    (∀ (fuel : Nat) (bk bk2 : List (List HexCell)),
      run_pass caps ccs k (List.range k) bk false = .ok (bk2, false) →
      rebalance caps ccs k (fuel + 1) bk = .ok (bk2, 1)) := by
  refine ⟨?_, ?_, ?_⟩
  · intro bk hbk
    obtain ⟨bkF, n, hrb, hn, -, -⟩ := rebalance_ok caps ccs k hcaps hccs _ bk hbk
    exact ⟨bkF, n, hrb, hn⟩
  · intro bk hin
    exact run_pass_no_moves caps ccs k hcaps (List.range k)
      (fun b hb => List.mem_range.mp hb) bk false hin
  · intro fuel bk bk2 hrp
    unfold rebalance
    rw [hrp]
    rfl

/-- The length of the vehicle list is preserved by the capacity loop
whenever it succeeds, with no further hypotheses. -/
theorem compute_capacities_aux_length (total bs : ℚ) :
    ∀ (l l2 : List Uav), compute_capacities_aux total bs l = .ok l2 → l2.length = l.length
  | [], l2, h => by
    injection h with h1
    rw [← h1]
  | u :: rest, l2, h => by
    unfold compute_capacities_aux at h
    cases hu : update_capacity total bs u with
    | error e =>
      rw [hu] at h
      cases h
    | ok u2 =>
      rw [hu] at h
      dsimp only at h
      cases hr : compute_capacities_aux total bs rest with
      | error e =>
        rw [hr] at h
        cases h
      | ok rest2 =>
        rw [hr] at h
        dsimp only at h
        injection h with h1
        rw [← h1, List.length_cons, List.length_cons,
          compute_capacities_aux_length total bs rest rest2 hr]

/-- Reading `capacities[b]` at the first missing index raises IndexError,
whatever the buckets hold (line 65, and line 80 for earlier buckets). -/
theorem process_bucket_error_at_caps_length (caps : List ℚ) (ccs : List (ℚ × ℚ))
    (k : Nat) (bk : List (List HexCell)) :
    process_bucket caps ccs k bk caps.length = .error .indexError := by
  unfold process_bucket
  rw [List.getElem?_eq_none (le_refl caps.length)]

/-- Any pass whose bucket range covers the first missing capacity index
raises an error. -/
theorem run_pass_error_of_missing_capacity (caps : List ℚ) (ccs : List (ℚ × ℚ))
    (k : Nat) :
    ∀ l : List Nat, caps.length ∈ l →
      ∀ (bk : List (List HexCell)) (ch : Bool),
      ∃ e, run_pass caps ccs k l bk ch = .error e
  | [], hmem, bk, ch => absurd hmem (List.not_mem_nil _)
  | b :: rest, hmem, bk, ch => by
    unfold run_pass
    by_cases hb : b = caps.length
    · subst hb
      rw [process_bucket_error_at_caps_length caps ccs k bk]
      exact ⟨.indexError, rfl⟩
    · cases hpb : process_bucket caps ccs k bk b with
      | error e => exact ⟨e, rfl⟩
      | ok r =>
        rcases List.mem_cons.mp hmem with heq | hmem2
        · exact absurd heq.symm hb
        · exact run_pass_error_of_missing_capacity caps ccs k rest hmem2 r.1 (ch || r.2)

/-- With fewer capacities than clusters, the first pass of the loop raises. -/
theorem rebalance_error_of_missing_capacity (caps : List ℚ) (ccs : List (ℚ × ℚ))
    (k : Nat) (hshort : caps.length < k) :
    ∀ (fuel : Nat) (bk : List (List HexCell)), 1 ≤ fuel →
      ∃ e, rebalance caps ccs k fuel bk = .error e := by
  intro fuel bk hfuel
  obtain ⟨f, rfl⟩ : ∃ f, fuel = f + 1 := ⟨fuel - 1, by omega⟩
  obtain ⟨e, he⟩ := run_pass_error_of_missing_capacity caps ccs k (List.range k)
    (List.mem_range.mpr hshort) bk false
  refine ⟨e, ?_⟩
  unfold rebalance
  rw [he]

/-- C10 (amended): if assign_hexes_to_uavs is called with a cluster count k
strictly greater than the number of vehicles (and the total workload is
positive, so the zero-workload guard passes), the call raises an exception
instead of returning: the first rebalancing pass reads capacities[b] for a
bucket index b at or beyond len(uavs) and gets an IndexError.  No
assignment or statistics are produced, so the exact-partition property of
C1 indeed requires k equal to (or, for a silent empty tail, below) the
number of vehicles. -/
theorem assign_k_above_vehicle_count_raises (hex_cells : List HexCell)
    (uavs : List Uav) (labels : List Nat) (cluster_centers : List (ℚ × ℚ))
    (kArg : Option Nat)
    (hk : uavs.length < kArg.getD uavs.length)
    (htot : 0 < total_workload hex_cells) :
    ∃ e, assign_hexes_to_uavs hex_cells uavs labels cluster_centers kArg = .error e := by
  unfold assign_hexes_to_uavs
  dsimp only
  rw [if_neg (not_le.mpr htot)]
  cases hcc : compute_capacities uavs (total_workload hex_cells) with
  | error e => exact ⟨e, rfl⟩
  | ok uavs2 =>
    dsimp only
    cases hbb : build_buckets hex_cells (kArg.getD uavs.length) labels 0
        (List.replicate (kArg.getD uavs.length) []) with
    | error e => exact ⟨e, rfl⟩
    | ok bk0 =>
      dsimp only
      have hlen2 : uavs2.length = uavs.length :=
        compute_capacities_aux_length (total_workload hex_cells) (battery_sum uavs)
          uavs uavs2 hcc
      have hshort : (uavs2.map (fun u => u.capacity_workload.getD 0)).length <
          kArg.getD uavs.length := by
        rw [List.length_map, hlen2]
        exact hk
      obtain ⟨e, he⟩ := rebalance_error_of_missing_capacity
        (uavs2.map (fun u => u.capacity_workload.getD 0)) cluster_centers
        (kArg.getD uavs.length) hshort (max 200 (10 * kArg.getD uavs.length)) bk0
        (by have := Nat.le_max_left 200 (10 * kArg.getD uavs.length); omega)
      rw [he]
      exact ⟨e, rfl⟩

/-- Counterexample to C10 as stated: a concrete call with one cell, one
vehicle and k = 2 raises IndexError; no assignment or statistics are
returned, so no cell is "silently absent from the returned assignment" —
there is no returned assignment at all. -/
theorem assign_k_above_vehicle_count_counterexample :
    assign_hexes_to_uavs
      [{ id := 0, center := (0, 0), area_m2 := 1, priority := none, restricted := false }]
      [{ id := 0, battery_pct := some 1, capacity_workload := some 1 }]
      [0] [(0, 0), (1, 1)] (some 2) = .error .indexError := by
  decide

/-! ## Concrete fixtures for the witnesses -/

/-- A plain cell of workload 1 at the origin. -/
def wCellA : HexCell :=
  { id := 0, center := (0, 0), area_m2 := 1, priority := none, restricted := false }

/-- A high-priority cell of workload 4 at (10, 0). -/
def wCellB : HexCell :=
  { id := 1, center := (10, 0), area_m2 := 2, priority := some 2, restricted := false }

/-- A vehicle at half battery with no supplied capacity. -/
def wUavA : Uav := { id := 0, battery_pct := some (1/2), capacity_workload := none }

/-- A second vehicle at half battery with no supplied capacity. -/
def wUavB : Uav := { id := 1, battery_pct := some (1/2), capacity_workload := none }

/-- A vehicle with a supplied capacity. -/
def wUavC : Uav := { id := 0, battery_pct := some 1, capacity_workload := some 1 }

/-- Witness for C1: the exact-partition conclusion at a concrete two-cell,
two-vehicle run with k defaulted. -/
theorem assign_exact_partition_witness :
    ∃ res, assign_hexes_to_uavs [wCellA, wCellB] [wUavA, wUavB]
        [0, 1] [(0, 0), (10, 0)] none = .ok res ∧
      ((res.1.map Prod.snd).flatten : Multiset HexCell) =
        ([wCellA, wCellB] : List HexCell) ∧
      (res.2.map (fun p => p.2.count_hexes)).sum = [wCellA, wCellB].length ∧
      (res.2.map (fun p => p.2.workload)).sum = total_workload [wCellA, wCellB] :=
  assign_exact_partition [wCellA, wCellB] [wUavA, wUavB] [0, 1] [(0, 0), (10, 0)] none
    rfl (by decide) rfl rfl (Or.inl (by decide)) (by decide)

/-- Witness for C2: the error-iff conclusion at the same concrete run. -/
theorem assign_error_iff_zero_workload_witness :
    ((∃ e, assign_hexes_to_uavs [wCellA, wCellB] [wUavA, wUavB]
        [0, 1] [(0, 0), (10, 0)] none = .error e) ↔
      total_workload [wCellA, wCellB] ≤ 0) ∧
    (total_workload [wCellA, wCellB] ≤ 0 →
      assign_hexes_to_uavs [wCellA, wCellB] [wUavA, wUavB]
        [0, 1] [(0, 0), (10, 0)] none = .error .zeroWorkload) :=
  assign_error_iff_zero_workload [wCellA, wCellB] [wUavA, wUavB] [0, 1]
    [(0, 0), (10, 0)] none rfl (by decide) rfl rfl (Or.inl (by decide))

/-- Witness for C3: the proportional-capacity conclusions at two concrete
vehicles of equal battery. -/
theorem compute_capacities_proportional_witness :
    compute_capacities [wUavA, wUavB] 10 = .ok (with_capacities [wUavA, wUavB] 10) ∧
    (∀ u ∈ [wUavA, wUavB], u.capacity_workload = none →
      cap_value 10 (battery_sum [wUavA, wUavB]) u =
        10 * (u.battery_pct.getD 1 / battery_sum [wUavA, wUavB])) ∧
    (∀ u ∈ [wUavA, wUavB], ∀ c, u.capacity_workload = some c →
      cap_value 10 (battery_sum [wUavA, wUavB]) u = c) ∧
    (∀ u1 ∈ [wUavA, wUavB], ∀ u2 ∈ [wUavA, wUavB], u1.battery_pct = u2.battery_pct →
      u1.capacity_workload = none → u2.capacity_workload = none →
      cap_value 10 (battery_sum [wUavA, wUavB]) u1 =
        cap_value 10 (battery_sum [wUavA, wUavB]) u2) :=
  compute_capacities_proportional [wUavA, wUavB] 10 (by decide)

/-- Witness for C5: the move-rule characterization at a concrete
over-capacity bucket (bucket 0 holds workload 5 against capacity 1). -/
theorem process_bucket_move_rule_witness :
    (List.Sorted (farther (([(0, 0), (10, 0)] : List (ℚ × ℚ)).getD 0 (0, 0)))
        (List.insertionSort (farther (([(0, 0), (10, 0)] : List (ℚ × ℚ)).getD 0 (0, 0)))
          (([[wCellA, wCellB], []] : List (List HexCell)).getD 0 [])) ∧
      (List.insertionSort (farther (([(0, 0), (10, 0)] : List (ℚ × ℚ)).getD 0 (0, 0)))
          (([[wCellA, wCellB], []] : List (List HexCell)).getD 0 [])).Perm
        (([[wCellA, wCellB], []] : List (List HexCell)).getD 0 [])) ∧
    (∀ bk0, process_bucket [1, 10] [(0, 0), (10, 0)] 2 [[wCellA, wCellB], []] 0 =
        .ok (bk0, false) ↔
      bk0 = [[wCellA, wCellB], []] ∧
        ∀ h ∈ ([[wCellA, wCellB], []] : List (List HexCell)).getD 0 [],
          ∀ b2, ¬spec_qualifies [1, 10] [[wCellA, wCellB], []] 2 0 h b2) ∧
    (∀ bk0, process_bucket [1, 10] [(0, 0), (10, 0)] 2 [[wCellA, wCellB], []] 0 =
        .ok (bk0, true) ↔
      ∃ pre h post b2,
        List.insertionSort (farther (([(0, 0), (10, 0)] : List (ℚ × ℚ)).getD 0 (0, 0)))
            (([[wCellA, wCellB], []] : List (List HexCell)).getD 0 []) =
          pre ++ h :: post ∧
        (∀ h2 ∈ pre, ∀ b2', ¬spec_qualifies [1, 10] [[wCellA, wCellB], []] 2 0 h2 b2') ∧
        spec_chooses [1, 10] [(0, 0), (10, 0)] [[wCellA, wCellB], []] 2 0 h b2 ∧
        bk0 = move_cell [[wCellA, wCellB], []] 0 b2 h) := by
  have := process_bucket_move_rule [1, 10] [(0, 0), (10, 0)] 2 [[wCellA, wCellB], []] 0
    rfl rfl (by decide) (by decide)
  exact ⟨⟨this.1.1, this.1.2⟩, this.2.1, this.2.2⟩

/-- Witness for C6: the termination conclusions at concrete parameters. -/
theorem rebalance_terminates_witness :
    (∀ bk : List (List HexCell), bk.length = 2 →
      ∃ bkF n, rebalance [1, 10] [(0, 0), (10, 0)] 2 (max 200 (10 * 2)) bk = .ok (bkF, n) ∧
        n ≤ max 200 (10 * 2)) ∧
    (∀ bk : List (List HexCell),
      (∀ b, b < 2 → bucket_workload (bk.getD b []) ≤ ([1, 10] : List ℚ).getD b 0) →
      run_pass [1, 10] [(0, 0), (10, 0)] 2 (List.range 2) bk false = .ok (bk, false)) ∧
    (∀ (fuel : Nat) (bk bk2 : List (List HexCell)),
      run_pass [1, 10] [(0, 0), (10, 0)] 2 (List.range 2) bk false = .ok (bk2, false) →
      rebalance [1, 10] [(0, 0), (10, 0)] 2 (fuel + 1) bk = .ok (bk2, 1)) :=
  rebalance_terminates [1, 10] [(0, 0), (10, 0)] 2 rfl rfl

/-- Witness for C9: the frame conclusions at the concrete two-vehicle run. -/
theorem assign_frame_effects_witness :
    ∃ res,
      assign_hexes_to_uavs [wCellA, wCellB] [wUavA, wUavB]
        [0, 1] [(0, 0), (10, 0)] none = .ok res ∧
      compute_capacities [wUavA, wUavB] (total_workload [wCellA, wCellB]) =
        .ok (with_capacities [wUavA, wUavB] (total_workload [wCellA, wCellB])) ∧
      (∀ u ∈ [wUavA, wUavB], ∀ c, u.capacity_workload = some c →
        cap_value (total_workload [wCellA, wCellB]) (battery_sum [wUavA, wUavB]) u = c) ∧
      (with_capacities [wUavA, wUavB] (total_workload [wCellA, wCellB])).map Uav.id =
        [wUavA, wUavB].map Uav.id ∧
      (with_capacities [wUavA, wUavB] (total_workload [wCellA, wCellB])).map
          Uav.battery_pct = [wUavA, wUavB].map Uav.battery_pct ∧
      (∀ p ∈ res.1, ∀ cell ∈ p.2, cell ∈ [wCellA, wCellB]) :=
  assign_frame_effects [wCellA, wCellB] [wUavA, wUavB] [0, 1] [(0, 0), (10, 0)] none
    rfl (by decide) rfl rfl (Or.inl (by decide)) (by decide)

/-- Witness for the amended C10 at the counterexample's input. -/
theorem assign_k_above_vehicle_count_raises_witness :
    ∃ e, assign_hexes_to_uavs [wCellA] [wUavC] [0] [(0, 0), (1, 1)] (some 2) =
      .error e :=
  assign_k_above_vehicle_count_raises [wCellA] [wUavC] [0] [(0, 0), (1, 1)] (some 2)
    (by decide) (by decide)
